import Mathlib

/-!
Verification development for the `isen_scrap_multithread` repository
(`src/scrap.py`): a multithreaded job-listing scraper with a JSON dump and a
normalized SQLite sink.

Shallow embedding notes.
* HTML parsing (BeautifulSoup) is an external collaborator.  A listing page is
  embedded as the list of its `div.card-content` blocks in document order;
  each block (`Card`) carries the sub-structures the code selects from it:
  `h2.title` text, `h3.company` text, `p.location` text, the `time` element
  (with its optional `datetime` attribute and its stripped display text) and
  the `href` values of the `a.card-footer-item` links, in order.  Fields are
  `Option`-valued because `select_one` can return `None`; texts are stored
  already stripped, mirroring `get_text(strip=True)`.
* The network is embedded as a function from URL to the outcome of
  `requests.get`: either a response with a status code and body, or a raised
  transport exception (`requests.get` raises on timeouts/connection errors;
  `scrap.py` installs no try/except around it).
* Python exceptions are modelled with `Except PyErr`: `fetch_html` propagates
  transport exceptions, `extract_info` can raise `IndexError` from
  `str_loc.split(",", 1)[1]`, and `scrape_jobs` re-raises either through
  `future.result()`.
* The SQLite database is embedded as three in-memory tables; `AUTOINCREMENT`
  ids start at 1 and only grow, `TEXT UNIQUE` lookup is `find?` over the rows,
  and `INSERT OR REPLACE` on the `jobs` primary key replaces in place.
* `time.sleep`, the ANSI-coloured progress prints and the worker-thread names
  are timing/observability only and are elided.  The thread pool is modelled
  denotationally: tasks are pure, each task's result is keyed by its own
  index, and completion order is an arbitrary permutation of the task
  results (see `dictOf` and the C9 theorem).
-/

/-- Outcome of one `requests.get` call: either an HTTP response (any status)
or a raised transport exception (timeout, connection error...). -/
inductive HttpOutcome where
  | response (status : Nat) (body : String)
  | transportError
  deriving Repr, DecidableEq

/-- The Python exceptions that can escape the functions under study. -/
inductive PyErr where
  | requestException
  | indexError
  deriving Repr, DecidableEq

/-- `fetch_html` from `src/scrap.py`: on status 200 return `resp.text`
(after a progress print, elided); on any other status return `""`.
A transport error raised by `requests.get` itself is NOT caught and
propagates to the caller. -/
def fetch_html : HttpOutcome → Except PyErr String
  | HttpOutcome.response status body =>
      if status = 200 then Except.ok body else Except.ok ""
  | HttpOutcome.transportError => Except.error PyErr.requestException

/-- The `time` element of a card: its optional `datetime` attribute and its
stripped display text. -/
structure TimeElem where
  datetime : Option String
  text : String
  deriving Repr, DecidableEq

/-- One `div.card-content` block, decomposed into the sub-structures
`extract_info`/`parse_cards` select from it. -/
structure Card where
  titleEl : Option String
  companyEl : Option String
  locationEl : Option String
  timeEl : Option TimeElem
  links : List String
  deriving Repr, DecidableEq

/-- `location = {"ville": ville, "region": region}`. -/
structure Location where
  ville : String
  region : String
  deriving Repr, DecidableEq

/-- The record dict built by `extract_info`. -/
structure Record where
  title : String
  company : String
  location : Location
  date : String
  url : String
  content : String
  deriving Repr, DecidableEq

/-- The environment a run interacts with: the network, and the detail-page
parse `sub_soup.select_one("div.content p")` (stripped text, if found). -/
structure Env where
  net : String → HttpOutcome
  parseDetail : String → Option String

/-- Split a character list at its first comma, when one exists. -/
def splitFirstComma : List Char → Option (List Char × List Char)
  | [] => none
  | c :: rest =>
    if c = ',' then some ([], rest)
    else (splitFirstComma rest).map (fun pr => (c :: pr.1, pr.2))

/-- Python `s.split(",", 1)`: split on the first comma only; a string with
no comma yields the one-element list `[s]`. -/
def pySplit1 (s : String) : List String :=
  match splitFirstComma s.toList with
  | none => [s]
  | some (a, b) => [⟨a⟩, ⟨b⟩]

/-- Python `s.strip()`: drop leading and trailing whitespace.  (Modelled
over the char list so that it evaluates by kernel reduction; Python strips a
slightly larger Unicode whitespace set, irrelevant to the claims.) -/
def pyStrip (s : String) : String :=
  ⟨((s.toList.dropWhile Char.isWhitespace).reverse.dropWhile
      Char.isWhitespace).reverse⟩

/-- Python list indexing `l[i]`: raises `IndexError` when out of range. -/
def pyIndex (l : List String) (i : Nat) : Except PyErr String :=
  match l.get? i with
  | some v => Except.ok v
  | none => Except.error PyErr.indexError

/-- The date expression of `extract_info`:
`time_elem.get("datetime") if time_elem and time_elem.get("datetime")
 else (time_elem.get_text(strip=True) if time_elem else "NC")`.
Note the truthiness test: an empty `datetime` attribute falls through to the
display text. -/
def dateOf : Option TimeElem → String
  | some te =>
      match te.datetime with
      | some d => if d = "" then te.text else d
      | none => te.text
  | none => "NC"

/-- `extract_info` from `src/scrap.py`.  `time.sleep(0.1)` and the thread
name are elided (timing only).  Evaluation order of the fallible steps
follows the source: the location split (line 166, possible `IndexError`)
happens before the detail fetch (line 179, possible transport exception). -/
def extract_info (env : Env) (idx : Nat) (title : String) (card : Card) :
    Except PyErr (Nat × Record) :=
  let apply_href : Option String := card.links.get? 1
  let company := card.companyEl.getD "NC"
  let str_loc := card.locationEl.getD "NC,--"
  let parts := pySplit1 str_loc
  match pyIndex parts 0 with
  | Except.error e => Except.error e
  | Except.ok ville =>
    match pyIndex parts 1 with
    | Except.error e => Except.error e
    | Except.ok region =>
      let date := dateOf card.timeEl
      let url := match apply_href with
        | some h => if h = "" then "NC" else h
        | none => "NC"
      if url = "NC" then
        Except.ok (idx, ⟨title, company, ⟨ville, region⟩, date, url, ""⟩)
      else
        match fetch_html (env.net url) with
        | Except.error e => Except.error e
        | Except.ok html_detail =>
          let content :=
            if html_detail = "" then ""
            else match env.parseDetail html_detail with
              | some ptext => ptext
              | none => ""
          Except.ok (idx, ⟨title, company, ⟨ville, region⟩, date, url, content⟩)

/-- `parse_cards` from `src/scrap.py`: enumerate the `div.card-content`
blocks in document order; the title is the stripped `h2.title` text, or
`"Job {idx}"` when the heading is absent.  The Python dict
`{idx: (title, card)}` with keys `0..N-1` in insertion order is embedded as
the association list in that order. -/
def parse_cards (cards : List Card) : List (Nat × String × Card) :=
  cards.enum.map (fun ic =>
    (ic.1,
     (match ic.2.titleEl with
      | some t => t
      | none => "Job " ++ toString ic.1),
     ic.2))

/-- Sequential collection of the pool tasks' results: any task exception is
re-raised by `future.result()` and aborts the run.  (Which of several failing
tasks raises first is timing-dependent in Python; this model surfaces the
first in submission order — no claim depends on the choice.) -/
def exceptMapM (f : α → Except PyErr β) : List α → Except PyErr (List β)
  | [] => Except.ok []
  | a :: l =>
    match f a with
    | Except.error e => Except.error e
    | Except.ok b =>
      match exceptMapM f l with
      | Except.error e => Except.error e
      | Except.ok bs => Except.ok (b :: bs)

/-- The fixed listing URL. -/
def URL : String := "https://realpython.github.io/fake-jobs/"

/-- `scrape_jobs` from `src/scrap.py`.  `workers` sizes the thread pool and
does not enter the denotation; `parseListing` is the BeautifulSoup collaborator
decomposing the listing HTML into its cards. -/
def scrape_jobs (workers : Nat) (env : Env)
    (parseListing : String → List Card) :
    Except PyErr (List (Nat × Record)) :=
  match fetch_html (env.net URL) with
  | Except.error e => Except.error e
  | Except.ok html =>
    if html = "" then Except.ok []
    else
      exceptMapM (fun c => extract_info env c.1 c.2.1 c.2.2)
        (parse_cards (parseListing html))

/-- The `results` dict as a mapping: `results[idx] = data` over completion
order, a later assignment overwriting an earlier one. -/
def dictOf (l : List (Nat × Record)) : Nat → Option Record :=
  fun k => (l.reverse.find? (fun p => p.1 == k)).map Prod.snd

/-! ### The SQLite sink (`save_sqlite`) -/

/-- One of the two reference tables (`titles`, `regions`):
`id INTEGER PRIMARY KEY AUTOINCREMENT, value TEXT UNIQUE`.
`nextId` is the autoincrement counter (SQLite starts at 1). -/
structure RefTable where
  rows : List (Nat × String)
  nextId : Nat
  deriving Repr, DecidableEq

/-- `SELECT id FROM table WHERE value = ?`. -/
def lookupRef (t : RefTable) (v : String) : Option Nat :=
  (t.rows.find? (fun r => r.2 == v)).map Prod.fst

/-- `INSERT INTO table (value) VALUES (?)` followed by `cur.lastrowid`. -/
def insertRef (t : RefTable) (v : String) : RefTable × Nat :=
  (⟨t.rows ++ [(t.nextId, v)], t.nextId + 1⟩, t.nextId)

/-- The select-then-insert-if-absent pattern of `save_sqlite` (lines 97-103
for titles, 108-114 for regions): reuse the existing id, else insert and take
`lastrowid`. -/
def getOrInsertRef (t : RefTable) (v : String) : RefTable × Nat :=
  match lookupRef t v with
  | some i => (t, i)
  | none => insertRef t v

/-- One row of the `jobs` fact table (minus its `id` primary key). -/
structure JobRow where
  title_id : Nat
  company : String
  ville : String
  region_id : Option Nat
  date : String
  url : String
  content : String
  deriving Repr, DecidableEq

/-- `INSERT OR REPLACE INTO jobs`: replace in place when the primary key
exists, append otherwise. -/
def upsertJob (jobs : List (Nat × JobRow)) (i : Nat) (row : JobRow) :
    List (Nat × JobRow) :=
  if jobs.any (fun p => p.1 == i) then
    jobs.map (fun p => if p.1 == i then (i, row) else p)
  else jobs ++ [(i, row)]

/-- `SELECT * FROM jobs WHERE id = ?` (first matching row). -/
def jobLookup (jobs : List (Nat × JobRow)) (i : Nat) : Option JobRow :=
  (jobs.find? (fun p => p.1 == i)).map Prod.snd

/-- The three tables created by `save_sqlite`. -/
structure DB where
  titles : RefTable
  regions : RefTable
  jobs : List (Nat × JobRow)
  deriving Repr, DecidableEq

/-- A freshly created database file: empty tables, autoincrement at 1. -/
def emptyDB : DB := ⟨⟨[], 1⟩, ⟨[], 1⟩, []⟩

/-- The body of the `for idx, item in data.items()` loop of `save_sqlite`:
trim the title, look-up-or-insert it; if the region text is non-empty (Python
truthiness `if region:`) look-up-or-insert it, else `region_id = None`;
then `INSERT OR REPLACE` the fact row keyed by `idx`.  `company`, `ville`,
`date`, `url`, `content` are stored verbatim. -/
def saveOne (db : DB) (idx : Nat) (r : Record) : DB :=
  let title := pyStrip r.title
  let ti := getOrInsertRef db.titles title
  let rg : RefTable × Option Nat :=
    if r.location.region = "" then (db.regions, none)
    else
      let x := getOrInsertRef db.regions r.location.region
      (x.1, some x.2)
  let row : JobRow :=
    ⟨ti.2, r.company, r.location.ville, rg.2, r.date, r.url, r.content⟩
  ⟨ti.1, rg.1, upsertJob db.jobs idx row⟩

/-- `save_sqlite` from `src/scrap.py`: the loop over `data.items()` in
insertion order (table creation is `IF NOT EXISTS`; the final `commit` and
`close` have no effect on the stored contents model). -/
def save_sqlite (data : List (Nat × Record)) (db : DB) : DB :=
  data.foldl (fun acc p => saveOne acc p.1 p.2) db

/-! ### List helpers -/

theorem find?_append_of_some {α : Type} {l l' : List α} {p : α → Bool}
    {a : α} (h : l.find? p = some a) : (l ++ l').find? p = some a := by
  induction l with
  | nil => simp [List.find?] at h
  | cons x xs ih =>
    rw [List.cons_append, List.find?]
    rw [List.find?] at h
    cases hx : p x with
    | true => simpa [hx] using h
    | false =>
      simp only [hx] at h ⊢
      exact ih h

theorem find?_append_of_none {α : Type} {l l' : List α} {p : α → Bool}
    (h : l.find? p = none) : (l ++ l').find? p = l'.find? p := by
  induction l with
  | nil => simp
  | cons x xs ih =>
    rw [List.cons_append, List.find?]
    rw [List.find?] at h
    cases hx : p x with
    | true => simp [hx] at h
    | false =>
      simp only [hx] at h ⊢
      exact ih h

theorem find?_key_of_mem {β : Type} {l : List (Nat × β)} {k : Nat} {v : β}
    (hnd : (l.map Prod.fst).Nodup) (hm : (k, v) ∈ l) :
    l.find? (fun p => p.1 == k) = some (k, v) := by
  induction l with
  | nil => simp at hm
  | cons x xs ih =>
    simp only [List.map_cons, List.nodup_cons] at hnd
    rcases List.mem_cons.mp hm with h | h
    · subst h
      simp [List.find?]
    · have hx : x.1 ≠ k := by
        intro he
        exact hnd.1 (he ▸ (List.mem_map.mpr ⟨(k, v), h, rfl⟩))
      have hpx : (x.1 == k) = false := by simpa using hx
      rw [List.find?]
      simp only [hpx]
      exact ih hnd.2 h

/-- `dictOf` returns only entries of the list. -/
theorem dictOf_mem {l : List (Nat × Record)} {k : Nat} {v : Record}
    (h : dictOf l k = some v) : (k, v) ∈ l := by
  unfold dictOf at h
  cases hf : l.reverse.find? (fun p => p.1 == k) with
  | none => rw [hf] at h; exact Option.noConfusion h
  | some a =>
    rw [hf] at h
    have ha : a ∈ l.reverse := List.mem_of_find?_eq_some hf
    have hk : a.1 = k := by
      have := List.find?_some hf
      simpa [beq_iff_eq] using this
    have hv : a.2 = v := by simpa using h
    rw [List.mem_reverse] at ha
    have he : a = (k, v) := by
      rw [← hk, ← hv]
    exact he ▸ ha

/-- With nodup keys, `dictOf` finds exactly the entry carrying the key. -/
theorem dictOf_eq_of_mem {l : List (Nat × Record)} {k : Nat} {v : Record}
    (hnd : (l.map Prod.fst).Nodup) (hm : (k, v) ∈ l) :
    dictOf l k = some v := by
  unfold dictOf
  have hnd' : (l.reverse.map Prod.fst).Nodup := by
    rw [List.map_reverse]
    exact List.nodup_reverse.mpr hnd
  have hm' : (k, v) ∈ l.reverse := List.mem_reverse.mpr hm
  rw [find?_key_of_mem hnd' hm']
  rfl

theorem dictOf_eq_none {l : List (Nat × Record)} {k : Nat}
    (h : k ∉ l.map Prod.fst) : dictOf l k = none := by
  unfold dictOf
  have : l.reverse.find? (fun p => p.1 == k) = none := by
    rw [List.find?_eq_none]
    intro x hx
    simp only [beq_iff_eq]
    intro he
    exact h (List.mem_map.mpr ⟨x, List.mem_reverse.mp hx, he⟩)
  rw [this]
  rfl

theorem mem_keys_of_dictOf_some {l : List (Nat × Record)} {k : Nat}
    {v : Record} (h : dictOf l k = some v) : k ∈ l.map Prod.fst :=
  List.mem_map.mpr ⟨(k, v), dictOf_mem h, rfl⟩

/-! ### Reference-table lemmas -/

theorem lookupRef_stable {t : RefTable} {v w : String} {j : Nat}
    (h : lookupRef t v = some j) :
    lookupRef (getOrInsertRef t w).1 v = some j := by
  unfold getOrInsertRef
  cases hw : lookupRef t w with
  | some i => exact h
  | none =>
    unfold lookupRef at h ⊢
    unfold insertRef
    cases hf : t.rows.find? (fun r => r.2 == v) with
    | none => rw [hf] at h; exact Option.noConfusion h
    | some a =>
      rw [hf] at h
      simp only
      rw [find?_append_of_some hf]
      exact h

theorem lookupRef_getOrInsert_self (t : RefTable) (v : String) :
    lookupRef (getOrInsertRef t v).1 v = some (getOrInsertRef t v).2 := by
  unfold getOrInsertRef
  cases hv : lookupRef t v with
  | some i => exact hv
  | none =>
    unfold lookupRef at hv ⊢
    unfold insertRef
    have hf : t.rows.find? (fun r => r.2 == v) = none := by
      cases hf : t.rows.find? (fun r => r.2 == v) with
      | none => rfl
      | some a => rw [hf] at hv; exact Option.noConfusion hv
    simp only
    rw [find?_append_of_none hf]
    simp [List.find?]

theorem getOrInsert_of_some {t : RefTable} {v : String} {j : Nat}
    (h : lookupRef t v = some j) : getOrInsertRef t v = (t, j) := by
  unfold getOrInsertRef
  rw [h]

/-! ### Fact-table (`jobs`) lemmas -/

theorem find?_replace_self {jobs : List (Nat × JobRow)} {i : Nat}
    {row : JobRow} (h : jobs.any (fun p => p.1 == i) = true) :
    (jobs.map fun p => if p.1 == i then (i, row) else p).find?
      (fun p => p.1 == i) = some (i, row) := by
  induction jobs with
  | nil => simp at h
  | cons x xs ih =>
    rw [List.map_cons]
    cases hx : (x.1 == i) with
    | true =>
      simp only [hx, if_true]
      rw [List.find?]
      simp
    | false =>
      simp only [hx, Bool.false_eq_true, if_false]
      rw [List.find?]
      simp only [hx]
      apply ih
      simp only [List.any_cons, hx, Bool.false_or] at h
      exact h

theorem find?_replace_other {jobs : List (Nat × JobRow)} {j i : Nat}
    {row : JobRow} (hne : j ≠ i) :
    (jobs.map fun p => if p.1 == j then (j, row) else p).find?
      (fun p => p.1 == i) = jobs.find? (fun p => p.1 == i) := by
  induction jobs with
  | nil => rfl
  | cons x xs ih =>
    rw [List.map_cons]
    cases hx : (x.1 == j) with
    | true =>
      have hxj : x.1 = j := by simpa using hx
      have hxi : (x.1 == i) = false := by simp [hxj, hne]
      have hji : ((j : Nat) == i) = false := by simp [hne]
      simp only [hx, if_true]
      rw [List.find?, List.find?]
      simp only [hxi, hji]
      exact ih
    | false =>
      simp only [hx, Bool.false_eq_true, if_false]
      rw [List.find?, List.find?]
      cases hxi : (x.1 == i) with
      | true => rfl
      | false => exact ih

theorem upsertJob_length_of_mem {jobs : List (Nat × JobRow)} {i : Nat}
    (row : JobRow) (h : jobs.any (fun p => p.1 == i) = true) :
    (upsertJob jobs i row).length = jobs.length := by
  unfold upsertJob
  rw [if_pos h]
  exact List.length_map _ _

theorem upsertJob_map_fst_of_mem {jobs : List (Nat × JobRow)} {i : Nat}
    (row : JobRow) (h : jobs.any (fun p => p.1 == i) = true) :
    (upsertJob jobs i row).map Prod.fst = jobs.map Prod.fst := by
  unfold upsertJob
  rw [if_pos h, List.map_map]
  apply List.map_congr_left
  intro a _
  cases ha : (a.1 == i) with
  | true =>
    have : a.1 = i := by simpa using ha
    simp [ha, this]
  | false =>
    have hne : ¬(a.1 = i) := by simpa using ha
    simp [hne]

theorem upsertJob_map_fst_of_not_mem {jobs : List (Nat × JobRow)} {i : Nat}
    (row : JobRow) (h : ¬jobs.any (fun p => p.1 == i) = true) :
    (upsertJob jobs i row).map Prod.fst = jobs.map Prod.fst ++ [i] := by
  unfold upsertJob
  rw [if_neg h, List.map_append]
  rfl

theorem mem_keys_upsert_self (jobs : List (Nat × JobRow)) (i : Nat)
    (row : JobRow) : i ∈ (upsertJob jobs i row).map Prod.fst := by
  by_cases h : jobs.any (fun p => p.1 == i) = true
  · rw [upsertJob_map_fst_of_mem row h]
    rcases List.any_eq_true.mp h with ⟨p, hp, hpi⟩
    have : p.1 = i := by simpa using hpi
    exact List.mem_map.mpr ⟨p, hp, this⟩
  · rw [upsertJob_map_fst_of_not_mem row h]
    exact List.mem_append.mpr (Or.inr (List.mem_singleton.mpr rfl))

theorem mem_keys_upsert_mono {jobs : List (Nat × JobRow)} {i : Nat}
    (j : Nat) (row : JobRow) (h : i ∈ jobs.map Prod.fst) :
    i ∈ (upsertJob jobs j row).map Prod.fst := by
  by_cases hj : jobs.any (fun p => p.1 == j) = true
  · rwa [upsertJob_map_fst_of_mem row hj]
  · rw [upsertJob_map_fst_of_not_mem row hj]
    exact List.mem_append.mpr (Or.inl h)

theorem any_key_of_mem_keys {jobs : List (Nat × JobRow)} {i : Nat}
    (h : i ∈ jobs.map Prod.fst) : jobs.any (fun p => p.1 == i) = true := by
  rcases List.mem_map.mp h with ⟨p, hp, hpi⟩
  exact List.any_eq_true.mpr ⟨p, hp, by simp [hpi]⟩

theorem jobLookup_upsert_self (jobs : List (Nat × JobRow)) (i : Nat)
    (row : JobRow) : jobLookup (upsertJob jobs i row) i = some row := by
  unfold jobLookup upsertJob
  by_cases h : jobs.any (fun p => p.1 == i) = true
  · rw [if_pos h, find?_replace_self h]
    rfl
  · rw [if_neg h]
    have hf : jobs.find? (fun p => p.1 == i) = none := by
      rw [List.find?_eq_none]
      intro x hx hpx
      exact h (List.any_eq_true.mpr ⟨x, hx, hpx⟩)
    rw [find?_append_of_none hf]
    simp [List.find?]

theorem jobLookup_upsert_other {jobs : List (Nat × JobRow)} {j i : Nat}
    (row : JobRow) (hne : j ≠ i) :
    jobLookup (upsertJob jobs j row) i = jobLookup jobs i := by
  unfold jobLookup upsertJob
  by_cases h : jobs.any (fun p => p.1 == j) = true
  · rw [if_pos h, find?_replace_other hne]
  · rw [if_neg h]
    cases hf : jobs.find? (fun p => p.1 == i) with
    | some a => rw [find?_append_of_some hf]
    | none =>
      have h1 : (jobs ++ [(j, row)]).find? (fun p => p.1 == i) =
          [(j, row)].find? (fun p => p.1 == i) := find?_append_of_none hf
      have h2 : [(j, row)].find? (fun p : Nat × JobRow => p.1 == i) = none := by
        have hji : ((j : Nat) == i) = false := by simp [hne]
        simp [List.find?, hji]
      rw [h1, h2]

/-- The mapping view of the results dict is stable under permutations of the
completion order, provided the keys are distinct. -/
theorem dictOf_perm {l₁ l₂ : List (Nat × Record)}
    (hnd : (l₁.map Prod.fst).Nodup) (hp : l₁.Perm l₂) (k : Nat) :
    dictOf l₁ k = dictOf l₂ k := by
  have hnd₂ : (l₂.map Prod.fst).Nodup := (hp.map Prod.fst).nodup_iff.mp hnd
  cases h1 : dictOf l₁ k with
  | none =>
    have hk : k ∉ l₁.map Prod.fst := by
      intro hmem
      rcases List.mem_map.mp hmem with ⟨⟨k', v⟩, hmv, hfst⟩
      cases hfst
      rw [dictOf_eq_of_mem hnd hmv] at h1
      exact Option.noConfusion h1
    have hk₂ : k ∉ l₂.map Prod.fst := fun hm =>
      hk ((hp.map Prod.fst).mem_iff.mpr hm)
    rw [dictOf_eq_none hk₂]
  | some v =>
    have := dictOf_mem h1
    exact (dictOf_eq_of_mem hnd₂ (hp.mem_iff.mp this)).symm

/-! ### `save_sqlite` structural lemmas -/

theorem save_sqlite_nil (db : DB) : save_sqlite [] db = db := rfl

theorem save_sqlite_cons (p : Nat × Record) (data : List (Nat × Record))
    (db : DB) :
    save_sqlite (p :: data) db = save_sqlite data (saveOne db p.1 p.2) := rfl

theorem saveOne_titles (db : DB) (i : Nat) (r : Record) :
    (saveOne db i r).titles = (getOrInsertRef db.titles (pyStrip r.title)).1 := by
  unfold saveOne
  by_cases hc : r.location.region = "" <;> simp [hc]

theorem saveOne_regions (db : DB) (i : Nat) (r : Record) :
    (saveOne db i r).regions =
      if r.location.region = "" then db.regions
      else (getOrInsertRef db.regions r.location.region).1 := by
  unfold saveOne
  by_cases hc : r.location.region = "" <;> simp [hc]

theorem saveOne_jobs (db : DB) (i : Nat) (r : Record) :
    (saveOne db i r).jobs = upsertJob db.jobs i
      ⟨(getOrInsertRef db.titles (pyStrip r.title)).2, r.company, r.location.ville,
       (if r.location.region = "" then none
        else some (getOrInsertRef db.regions r.location.region).2),
       r.date, r.url, r.content⟩ := by
  unfold saveOne
  by_cases hc : r.location.region = "" <;> simp [hc]

/-- Once a value resolves to an id in `titles`, it still resolves to that id
after any further `save_sqlite` run. -/
theorem save_titles_stable {data : List (Nat × Record)} {db : DB}
    {v : String} {j : Nat} (h : lookupRef db.titles v = some j) :
    lookupRef (save_sqlite data db).titles v = some j := by
  induction data generalizing db with
  | nil => exact h
  | cons q rest ih =>
    rw [save_sqlite_cons]
    apply ih
    rw [saveOne_titles]
    exact lookupRef_stable h

/-- Same stability for `regions`. -/
theorem save_regions_stable {data : List (Nat × Record)} {db : DB}
    {v : String} {j : Nat} (h : lookupRef db.regions v = some j) :
    lookupRef (save_sqlite data db).regions v = some j := by
  induction data generalizing db with
  | nil => exact h
  | cons q rest ih =>
    rw [save_sqlite_cons]
    apply ih
    rw [saveOne_regions]
    by_cases hc : q.2.location.region = ""
    · rw [if_pos hc]; exact h
    · rw [if_neg hc]; exact lookupRef_stable h

/-- A fact row keyed outside the persisted indices is untouched. -/
theorem save_jobLookup_stable {data : List (Nat × Record)} {db : DB}
    {i : Nat} (h : i ∉ data.map Prod.fst) :
    jobLookup (save_sqlite data db).jobs i = jobLookup db.jobs i := by
  induction data generalizing db with
  | nil => rfl
  | cons q rest ih =>
    simp only [List.map_cons, List.mem_cons, not_or] at h
    rw [save_sqlite_cons, ih h.2, saveOne_jobs]
    exact jobLookup_upsert_other _ (Ne.symm h.1)

/-- Fact-row keys are never removed by a run. -/
theorem save_jobs_keys_mono {data : List (Nat × Record)} {db : DB}
    {i : Nat} (h : i ∈ db.jobs.map Prod.fst) :
    i ∈ (save_sqlite data db).jobs.map Prod.fst := by
  induction data generalizing db with
  | nil => exact h
  | cons q rest ih =>
    rw [save_sqlite_cons]
    apply ih
    rw [saveOne_jobs]
    exact mem_keys_upsert_mono _ _ h

/-- After a run, every persisted Record has its trimmed title in `titles`,
its non-empty region in `regions`, and its index among the fact-row keys. -/
theorem save_presence (data : List (Nat × Record)) (db : DB) :
    ∀ p ∈ data,
      (∃ j, lookupRef (save_sqlite data db).titles (pyStrip p.2.title) = some j) ∧
      (p.2.location.region ≠ "" →
        ∃ j, lookupRef (save_sqlite data db).regions p.2.location.region
          = some j) ∧
      p.1 ∈ (save_sqlite data db).jobs.map Prod.fst := by
  induction data generalizing db with
  | nil => intro p hp; exact absurd hp (List.not_mem_nil p)
  | cons q rest ih =>
    intro p hp
    rw [save_sqlite_cons]
    rcases List.mem_cons.mp hp with he | hm
    · subst he
      have h1 : lookupRef (saveOne db p.1 p.2).titles (pyStrip p.2.title)
          = some (getOrInsertRef db.titles (pyStrip p.2.title)).2 := by
        rw [saveOne_titles]
        exact lookupRef_getOrInsert_self _ _
      refine ⟨⟨_, save_titles_stable h1⟩, fun hr => ?_, ?_⟩
      · have h2 : lookupRef (saveOne db p.1 p.2).regions p.2.location.region
            = some (getOrInsertRef db.regions p.2.location.region).2 := by
          rw [saveOne_regions, if_neg hr]
          exact lookupRef_getOrInsert_self _ _
        exact ⟨_, save_regions_stable h2⟩
      · apply save_jobs_keys_mono
        rw [saveOne_jobs]
        exact mem_keys_upsert_self _ _ _
    · exact ih _ p hm

/-- A run whose titles, regions and indices are all already present changes
neither reference table and neither the length nor the keys of `jobs`. -/
theorem save_preserve (data : List (Nat × Record)) (db : DB)
    (ht : ∀ p ∈ data, ∃ j, lookupRef db.titles (pyStrip p.2.title) = some j)
    (hr : ∀ p ∈ data, p.2.location.region ≠ "" →
      ∃ j, lookupRef db.regions p.2.location.region = some j)
    (hj : ∀ p ∈ data, p.1 ∈ db.jobs.map Prod.fst) :
    (save_sqlite data db).titles = db.titles ∧
    (save_sqlite data db).regions = db.regions ∧
    (save_sqlite data db).jobs.length = db.jobs.length ∧
    (save_sqlite data db).jobs.map Prod.fst = db.jobs.map Prod.fst := by
  induction data generalizing db with
  | nil => exact ⟨rfl, rfl, rfl, rfl⟩
  | cons q rest ih =>
    have hqm : q ∈ q :: rest := List.mem_cons_self q rest
    obtain ⟨jt, hjt⟩ := ht q hqm
    have htit : (saveOne db q.1 q.2).titles = db.titles := by
      rw [saveOne_titles, getOrInsert_of_some hjt]
    have hreg : (saveOne db q.1 q.2).regions = db.regions := by
      rw [saveOne_regions]
      by_cases hc : q.2.location.region = ""
      · rw [if_pos hc]
      · obtain ⟨jr, hjr⟩ := hr q hqm hc
        rw [if_neg hc, getOrInsert_of_some hjr]
    have hany : db.jobs.any (fun p => p.1 == q.1) = true :=
      any_key_of_mem_keys (hj q hqm)
    have hjkeys : (saveOne db q.1 q.2).jobs.map Prod.fst
        = db.jobs.map Prod.fst := by
      rw [saveOne_jobs]
      exact upsertJob_map_fst_of_mem _ hany
    have hjlen : (saveOne db q.1 q.2).jobs.length = db.jobs.length := by
      rw [saveOne_jobs]
      exact upsertJob_length_of_mem _ hany
    rw [save_sqlite_cons]
    have step := ih (saveOne db q.1 q.2)
      (fun p hp => by rw [htit]; exact ht p (List.mem_cons_of_mem q hp))
      (fun p hp hne => by rw [hreg]; exact hr p (List.mem_cons_of_mem q hp) hne)
      (fun p hp => by rw [hjkeys]; exact hj p (List.mem_cons_of_mem q hp))
    refine ⟨?_, ?_, ?_, ?_⟩
    · rw [step.1, htit]
    · rw [step.2.1, hreg]
    · rw [step.2.2.1, hjlen]
    · rw [step.2.2.2, hjkeys]

/-- The fact row persisted for each Record carries exactly the ids that its
trimmed title (and, when non-empty, its region text) resolve to in the final
reference tables. -/
theorem save_persisted (data : List (Nat × Record)) (db : DB)
    (hnd : (data.map Prod.fst).Nodup) :
    ∀ p ∈ data, ∃ row : JobRow,
      jobLookup (save_sqlite data db).jobs p.1 = some row ∧
      lookupRef (save_sqlite data db).titles (pyStrip p.2.title)
        = some row.title_id ∧
      (p.2.location.region = "" → row.region_id = none) ∧
      (p.2.location.region ≠ "" → ∃ rid, row.region_id = some rid ∧
        lookupRef (save_sqlite data db).regions p.2.location.region
          = some rid) := by
  induction data generalizing db with
  | nil => intro p hp; exact absurd hp (List.not_mem_nil p)
  | cons q rest ih =>
    simp only [List.map_cons, List.nodup_cons] at hnd
    intro p hp
    rw [save_sqlite_cons]
    rcases List.mem_cons.mp hp with he | hm
    · subst he
      refine ⟨⟨(getOrInsertRef db.titles (pyStrip p.2.title)).2, p.2.company,
        p.2.location.ville,
        (if p.2.location.region = "" then none
         else some (getOrInsertRef db.regions p.2.location.region).2),
        p.2.date, p.2.url, p.2.content⟩, ?_, ?_, ?_, ?_⟩
      · have hstable : p.1 ∉ rest.map Prod.fst := by
          intro hmem
          exact hnd.1 hmem
        rw [save_jobLookup_stable hstable, saveOne_jobs]
        exact jobLookup_upsert_self _ _ _
      · apply save_titles_stable
        rw [saveOne_titles]
        exact lookupRef_getOrInsert_self _ _
      · intro hr
        simp [hr]
      · intro hr
        refine ⟨(getOrInsertRef db.regions p.2.location.region).2, ?_, ?_⟩
        · simp [hr]
        · apply save_regions_stable
          rw [saveOne_regions, if_neg hr]
          exact lookupRef_getOrInsert_self _ _
    · exact ih (saveOne db q.1 q.2) hnd.2 p hm

/-! ### `extract_info` lemmas -/

/-- A successful extraction returns its own index, the given title, the
company default chain and the date policy expression. -/
theorem extract_info_ok_fields {env : Env} {idx : Nat} {title : String}
    {card : Card} {p : Nat × Record}
    (h : extract_info env idx title card = Except.ok p) :
    p.1 = idx ∧ p.2.title = title ∧ p.2.company = card.companyEl.getD "NC" ∧
    p.2.date = dateOf card.timeEl := by
  simp only [extract_info] at h
  repeat' split at h
  all_goals first
    | exact Except.noConfusion h
    | (cases h; exact ⟨rfl, rfl, rfl, rfl⟩)

theorem extract_info_ok_fst {env : Env} {idx : Nat} {title : String}
    {card : Card} {p : Nat × Record}
    (h : extract_info env idx title card = Except.ok p) : p.1 = idx :=
  (extract_info_ok_fields h).1


/-- `pySplit1` always has a first element: Python indexing `[0]` after a
split never raises. -/
theorem pyIndex_pySplit1_zero (s : String) :
    ∃ v, pyIndex (pySplit1 s) 0 = Except.ok v := by
  unfold pySplit1
  cases splitFirstComma s.toList with
  | none => exact ⟨s, rfl⟩
  | some pr =>
    obtain ⟨a, b⟩ := pr
    exact ⟨⟨a⟩, rfl⟩

/-! ### Claim theorems for the Fetcher and Extractor -/

/-- C2 (amended): for every URL and every HTTP response actually received,
`fetch_html` does not raise: status 200 yields the body, any other status
yields the empty string.  (The original claim extended this to transport
failures; `fetch_html_transport_cex` shows those propagate as exceptions.) -/
theorem fetch_html_response_total (status : Nat) (body : String) :
    fetch_html (HttpOutcome.response status body)
      = Except.ok (if status = 200 then body else "") := by
  unfold fetch_html
  by_cases h : status = 200 <;> simp [h]

/-- C2 counterexample: a transport failure of the underlying GET is not
caught — `fetch_html` raises instead of returning the empty string, refuting
"never raises ... on any transport failure it returns the empty string". -/
theorem fetch_html_transport_cex :
    fetch_html HttpOutcome.transportError
      = Except.error PyErr.requestException ∧
    fetch_html HttpOutcome.transportError ≠ Except.ok "" := by
  constructor
  · rfl
  · intro h
    exact Except.noConfusion h

/-- C3 (amended): for every card whose location ELEMENT is absent, the
sentinel `"NC,--"` is split on its first comma, so any Record produced has
`region = "--"`; and if the card also has fewer than two footer links (so
no detail fetch can raise), `extract_info` completes without error.  (The
original claim's "location text contains no comma" case is refuted by
`extract_info_comma_free_location_cex`: a present comma-free location text
raises `IndexError`.) -/
theorem extract_info_missing_location_region (env : Env) (idx : Nat)
    (title : String) (card : Card) (hloc : card.locationEl = none) :
    (∀ p : Nat × Record, extract_info env idx title card = Except.ok p →
      p.2.location.region = "--") ∧
    (card.links.length ≤ 1 →
      ∃ p : Nat × Record, extract_info env idx title card = Except.ok p ∧
        p.2.location.region = "--") := by
  have h0 : pyIndex (pySplit1 "NC,--") 0 = Except.ok "NC" := rfl
  have h1 : pyIndex (pySplit1 "NC,--") 1 = Except.ok "--" := rfl
  constructor
  · intro p h
    simp only [extract_info, hloc, Option.getD_none, h0, h1] at h
    repeat' split at h
    all_goals first
      | exact Except.noConfusion h
      | (cases h; rfl)
  · intro hlen
    have hnone : card.links.get? 1 = none := List.get?_eq_none.mpr hlen
    refine ⟨(idx, ⟨title, card.companyEl.getD "NC", ⟨"NC", "--"⟩,
      dateOf card.timeEl, "NC", ""⟩), ?_, rfl⟩
    simp only [extract_info, hloc, Option.getD_none, h0, h1, hnone, if_true]

/-- C3 counterexample: a card whose location text is present but contains no
comma makes `extract_info` raise `IndexError` (`str_loc.split(",", 1)[1]`),
refuting "completes without error". -/
theorem extract_info_comma_free_location_cex :
    extract_info ⟨fun _ => HttpOutcome.response 200 "d", fun _ => none⟩ 0 "T"
      ⟨some "T", none, some "Paris", none, []⟩
      = Except.error PyErr.indexError := by rfl

/-- C4 (amended): a card with fewer than two footer links yields
`url = "NC"` and `content = ""`, and no detail fetch is attempted (the
result does not depend on the environment at all); with at least two links,
the url is the second link's href PROVIDED that href is non-empty (an empty
href also degrades to `"NC"`, see `extract_info_empty_href_cex`). -/
theorem extract_info_footer_links (env : Env) (idx : Nat) (title : String)
    (card : Card) :
    (card.links.length ≤ 1 →
      (∀ p : Nat × Record, extract_info env idx title card = Except.ok p →
        p.2.url = "NC" ∧ p.2.content = "") ∧
      (∀ env₂ : Env, extract_info env idx title card
        = extract_info env₂ idx title card)) ∧
    (∀ href : String, card.links.get? 1 = some href → href ≠ "" →
      ∀ p : Nat × Record, extract_info env idx title card = Except.ok p →
        p.2.url = href) := by
  constructor
  · intro hlen
    have hnone : card.links.get? 1 = none := List.get?_eq_none.mpr hlen
    constructor
    · intro p h
      simp only [extract_info, hnone, if_true] at h
      repeat' split at h
      all_goals first
        | exact Except.noConfusion h
        | (cases h; exact ⟨rfl, rfl⟩)
    · intro env₂
      obtain ⟨v0, hv0⟩ := pyIndex_pySplit1_zero (card.locationEl.getD "NC,--")
      cases hpi : pyIndex (pySplit1 (card.locationEl.getD "NC,--")) 1 with
      | error e => simp only [extract_info, hnone, hv0, hpi]
      | ok region =>
        simp only [extract_info, hnone, hv0, hpi, if_true]
  · intro href hsome hne p h
    have hurl : (if href = "" then "NC" else href) = href := if_neg hne
    simp only [extract_info, hsome, hurl] at h
    repeat' split at h
    all_goals first
      | exact Except.noConfusion h
      | (cases h; rfl)

/-- C4 counterexample: a card with two footer links whose second href is the
empty string gets `url = "NC"`, not the second link's href, because of the
Python truthiness test `url = apply_href if apply_href else "NC"`. -/
theorem extract_info_empty_href_cex :
    extract_info ⟨fun _ => HttpOutcome.response 200 "d", fun _ => none⟩ 0 "T"
      ⟨some "T", none, none, none, ["a", ""]⟩
      = Except.ok (0, ⟨"T", "NC", ⟨"NC", "--"⟩, "NC", "NC", ""⟩) ∧
    ("NC" : String) ≠ "" := by
  constructor
  · rfl
  · decide

/-- C5 (amended): the date of any produced Record follows the priority:
a present time node with a NON-EMPTY `datetime` attribute contributes that
attribute; a present time node otherwise (no attribute, or an empty one —
the Python truthiness test) contributes its stripped display text; an absent
time node yields `"NC"`.  (The original claim, which lets an empty attribute
win, is refuted by `extract_info_empty_datetime_cex`.) -/
theorem extract_info_date_priority {env : Env} {idx : Nat} {title : String}
    {card : Card} {p : Nat × Record}
    (h : extract_info env idx title card = Except.ok p) :
    (∀ te d, card.timeEl = some te → te.datetime = some d → d ≠ "" →
      p.2.date = d) ∧
    (∀ te, card.timeEl = some te →
      te.datetime = none ∨ te.datetime = some "" → p.2.date = te.text) ∧
    (card.timeEl = none → p.2.date = "NC") := by
  have hd : p.2.date = dateOf card.timeEl := (extract_info_ok_fields h).2.2.2
  refine ⟨?_, ?_, ?_⟩
  · intro te d hte hdt hne
    rw [hd, hte]
    simp [dateOf, hdt, hne]
  · intro te hte hcase
    rw [hd, hte]
    rcases hcase with hc | hc <;> simp [dateOf, hc]
  · intro hte
    rw [hd, hte]
    rfl

/-- C5 counterexample: a time node carrying an EMPTY `datetime` attribute
does not contribute the attribute's value (the empty string); the display
text wins instead, refuting the claim's unconditional "carries a datetime
attribute → the date is that attribute's value". -/
theorem extract_info_empty_datetime_cex :
    extract_info ⟨fun _ => HttpOutcome.response 200 "d", fun _ => none⟩ 0 "T"
      ⟨some "T", none, none, some ⟨some "", "May 2023"⟩, []⟩
      = Except.ok (0, ⟨"T", "NC", ⟨"NC", "--"⟩, "May 2023", "NC", ""⟩) ∧
    ("May 2023" : String) ≠ "" := by
  constructor
  · rfl
  · decide

/-! ### `exceptMapM`, `parse_cards` and `scrape_jobs` lemmas -/

theorem exceptMapM_ok_forall₂ {α β : Type} {f : α → Except PyErr β}
    {l : List α} {r : List β} (h : exceptMapM f l = Except.ok r) :
    List.Forall₂ (fun a b => f a = Except.ok b) l r := by
  induction l generalizing r with
  | nil =>
    unfold exceptMapM at h
    cases h
    exact List.Forall₂.nil
  | cons a as ih =>
    unfold exceptMapM at h
    cases hf : f a with
    | error e => rw [hf] at h; exact Except.noConfusion h
    | ok b =>
      rw [hf] at h
      cases hm : exceptMapM f as with
      | error e => rw [hm] at h; exact Except.noConfusion h
      | ok bs =>
        rw [hm] at h
        cases h
        exact List.Forall₂.cons hf (ih hm)

theorem exceptMapM_ok_of_forall {α β : Type} {f : α → Except PyErr β}
    {l : List α} (h : ∀ a ∈ l, ∃ b, f a = Except.ok b) :
    ∃ r, exceptMapM f l = Except.ok r := by
  induction l with
  | nil => exact ⟨[], rfl⟩
  | cons a as ih =>
    obtain ⟨b, hb⟩ := h a (List.mem_cons_self a as)
    obtain ⟨bs, hbs⟩ := ih (fun x hx => h x (List.mem_cons_of_mem a hx))
    refine ⟨b :: bs, ?_⟩
    unfold exceptMapM
    rw [hb, hbs]

theorem forall₂_map_eq {α β γ : Type} {R : α → β → Prop} {g : α → γ}
    {gb : β → γ} {l : List α} {r : List β} (h : List.Forall₂ R l r)
    (hc : ∀ a b, R a b → g a = gb b) : l.map g = r.map gb := by
  induction h with
  | nil => rfl
  | cons hab _ ih => simp only [List.map_cons, hc _ _ hab, ih]

theorem forall₂_mem_left {α β : Type} {R : α → β → Prop} {l : List α}
    {r : List β} (h : List.Forall₂ R l r) {a : α} (ha : a ∈ l) :
    ∃ b ∈ r, R a b := by
  induction h with
  | nil => exact absurd ha (List.not_mem_nil a)
  | cons hab htail ih =>
    rcases List.mem_cons.mp ha with he | hm
    · subst he
      exact ⟨_, List.mem_cons_self _ _, hab⟩
    · obtain ⟨b, hb, hr⟩ := ih hm
      exact ⟨b, List.mem_cons_of_mem _ hb, hr⟩

/-- The keys produced by the Card Locator are exactly `0 .. N-1` in order. -/
theorem parse_cards_map_fst (cards : List Card) :
    (parse_cards cards).map Prod.fst = List.range cards.length := by
  unfold parse_cards
  rw [List.map_map]
  have hcomp : (Prod.fst ∘ fun ic : Nat × Card =>
      (ic.1,
       (match ic.2.titleEl with
        | some t => t
        | none => "Job " ++ toString ic.1),
       ic.2)) = Prod.fst := rfl
  rw [hcomp, List.enum_map_fst]

/-- A successful run has distinct result keys. -/
theorem scrape_jobs_ok_keys {workers : Nat} {env : Env}
    {parseListing : String → List Card} {results : List (Nat × Record)}
    (h : scrape_jobs workers env parseListing = Except.ok results) :
    (results.map Prod.fst).Nodup := by
  cases hf : fetch_html (env.net URL) with
  | error e =>
    simp only [scrape_jobs, hf] at h
    exact Except.noConfusion h
  | ok html =>
    simp only [scrape_jobs, hf] at h
    by_cases hh : html = ""
    · rw [if_pos hh] at h
      cases h
      exact List.nodup_nil
    · rw [if_neg hh] at h
      have hF := exceptMapM_ok_forall₂ h
      have hmap : (parse_cards (parseListing html)).map Prod.fst
          = results.map Prod.fst :=
        forall₂_map_eq hF (fun a b hab => (extract_info_ok_fst hab).symm)
      rw [← hmap, parse_cards_map_fst]
      exact List.nodup_range _

/-! ### Claim theorems for the Orchestrator -/

/-- C1 (amended): if the listing fetch succeeds with non-empty content and
every card's extraction completes without an exception (which in particular
requires every attempted detail fetch to succeed), then `scrape_jobs`
returns a ResultSet with exactly N entries, keys exactly `0 .. N-1`, each
key mapped to the Record extracted from the card at that zero-based
document-order position.  (The original claim, conditioned on fetch success
only, is refuted by `scrape_jobs_task_abort_cex`: a card whose extraction
raises aborts the whole run even though every fetch succeeded.) -/
theorem scrape_jobs_complete_run (workers : Nat) (env : Env)
    (parseListing : String → List Card) (html : String)
    (hnet : env.net URL = HttpOutcome.response 200 html) (hne : html ≠ "")
    (hok : ∀ c ∈ parse_cards (parseListing html), ∃ r : Record,
      extract_info env c.1 c.2.1 c.2.2 = Except.ok (c.1, r)) :
    ∃ results : List (Nat × Record),
      scrape_jobs workers env parseListing = Except.ok results ∧
      results.length = (parseListing html).length ∧
      results.map Prod.fst = List.range (parseListing html).length ∧
      ∀ c ∈ parse_cards (parseListing html), ∃ r : Record,
        extract_info env c.1 c.2.1 c.2.2 = Except.ok (c.1, r) ∧
        dictOf results c.1 = some r := by
  obtain ⟨results, hres⟩ := exceptMapM_ok_of_forall
    (fun a ha => by
      obtain ⟨r, hr⟩ := hok a ha
      exact ⟨(a.1, r), hr⟩)
  have hfetch : fetch_html (env.net URL) = Except.ok html := by
    rw [hnet]
    simp [fetch_html]
  have hrun : scrape_jobs workers env parseListing = Except.ok results := by
    simp only [scrape_jobs, hfetch, if_neg hne]
    exact hres
  have hF := exceptMapM_ok_forall₂ hres
  have hmap : (parse_cards (parseListing html)).map Prod.fst
      = results.map Prod.fst :=
    forall₂_map_eq hF (fun a b hab => (extract_info_ok_fst hab).symm)
  have hkeys : results.map Prod.fst
      = List.range (parseListing html).length := by
    rw [← hmap, parse_cards_map_fst]
  have hnd : (results.map Prod.fst).Nodup := by
    rw [hkeys]
    exact List.nodup_range _
  have hlen : results.length = (parseListing html).length := by
    have h1 := congrArg List.length hkeys
    simpa using h1
  refine ⟨results, hrun, hlen, hkeys, ?_⟩
  intro c hc
  obtain ⟨b, hbmem, hab⟩ := forall₂_mem_left hF hc
  obtain ⟨r, hr⟩ := hok c hc
  have hb : b = (c.1, r) := Except.ok.inj (hab.symm.trans hr)
  subst hb
  exact ⟨r, hr, dictOf_eq_of_mem hnd hbmem⟩

/-- A card whose present location text has no comma: extracting it raises. -/
def badCard : Card := ⟨some "T", none, some "Paris", none, []⟩

/-- A network on which every GET yields status 200 with body `"L"`. -/
def envL : Env := ⟨fun _ => HttpOutcome.response 200 "L", fun _ => none⟩

/-- A listing parse that finds exactly one card, `badCard`. -/
def parseBadListing : String → List Card := fun _ => [badCard]

/-- C1 counterexample: the listing fetch succeeds with non-empty content,
the Card Locator finds one card, the card has no detail links (so every
detail fetch trivially succeeds), yet `scrape_jobs` propagates the task's
`IndexError` and returns no ResultSet at all — refuting the claim that
fetch success alone guarantees an N-entry ResultSet. -/
theorem scrape_jobs_task_abort_cex :
    envL.net URL = HttpOutcome.response 200 "L" ∧
    ("L" : String) ≠ "" ∧
    (parseBadListing "L").length = 1 ∧
    badCard.links = [] ∧
    scrape_jobs 1 envL parseBadListing = Except.error PyErr.indexError := by
  refine ⟨rfl, ?_, rfl, rfl, rfl⟩
  decide

/-- C8: if the single listing fetch returns empty content, `scrape_jobs`
returns the empty ResultSet at once, for EVERY possible card parser — no
card is located, no Extractor task runs, no detail fetch happens (the result
does not depend on them), and no exception escapes. -/
theorem scrape_jobs_empty_listing (workers : Nat) (env : Env)
    (h : fetch_html (env.net URL) = Except.ok "") :
    ∀ parseListing : String → List Card,
      scrape_jobs workers env parseListing = Except.ok [] := by
  intro parseListing
  simp only [scrape_jobs, h, if_true]

/-- A network answering 404 everywhere: `fetch_html` degrades to `""`. -/
def env404 : Env := ⟨fun _ => HttpOutcome.response 404 "body", fun _ => none⟩

/-- Witness for C8 at a concrete 404 environment. -/
theorem scrape_jobs_empty_listing_witness :
    fetch_html (env404.net URL) = Except.ok "" ∧
    scrape_jobs 5 env404 parseBadListing = Except.ok [] :=
  ⟨rfl, scrape_jobs_empty_listing 5 env404 rfl parseBadListing⟩

/-- C9: the worker count does not enter the run's denotation, and whatever
completion order the pool produces (any permutation of the task results),
the ResultSet read as a mapping is the same: pool size and scheduling never
affect which Record is attributed to which index. -/
theorem scrape_jobs_pool_size_irrelevant (w₁ w₂ : Nat) (env : Env)
    (parseListing : String → List Card)
    (results l₁ l₂ : List (Nat × Record))
    (hrun : scrape_jobs w₁ env parseListing = Except.ok results)
    (hp₁ : results.Perm l₁) (hp₂ : results.Perm l₂) :
    scrape_jobs w₁ env parseListing = scrape_jobs w₂ env parseListing ∧
    ∀ k, dictOf l₁ k = dictOf l₂ k := by
  constructor
  · rfl
  · intro k
    have hnd := scrape_jobs_ok_keys hrun
    have hnd₁ : (l₁.map Prod.fst).Nodup := ((hp₁.map Prod.fst).nodup_iff).mp hnd
    exact dictOf_perm hnd₁ (hp₁.symm.trans hp₂) k

/-- A titled card with no optional sub-structures. -/
def cardA : Card := ⟨some "A", none, none, none, []⟩

/-- A second such card. -/
def cardB : Card := ⟨some "B", none, none, none, []⟩

/-- A listing parse that finds `cardA` then `cardB`. -/
def parseTwoCards : String → List Card := fun _ => [cardA, cardB]

/-- The Record extracted from `cardA`. -/
def recA : Record := ⟨"A", "NC", ⟨"NC", "--"⟩, "NC", "NC", ""⟩

/-- The Record extracted from `cardB`. -/
def recB : Record := ⟨"B", "NC", ⟨"NC", "--"⟩, "NC", "NC", ""⟩

/-- Witness for C9: a concrete two-card run, with the two possible
completion orders, yields the same mapping. -/
theorem scrape_jobs_pool_size_irrelevant_witness :
    scrape_jobs 1 envL parseTwoCards = scrape_jobs 8 envL parseTwoCards ∧
    ∀ k, dictOf [(1, recB), (0, recA)] k
      = dictOf [(0, recA), (1, recB)] k := by
  have hrun : scrape_jobs 1 envL parseTwoCards
      = Except.ok [(0, recA), (1, recB)] := rfl
  exact scrape_jobs_pool_size_irrelevant 1 8 envL parseTwoCards
    [(0, recA), (1, recB)] [(1, recB), (0, recA)] [(0, recA), (1, recB)]
    hrun (List.Perm.swap (1, recB) (0, recA) []) (List.Perm.refl _)

/-- Witness for C1 at a concrete two-card listing. -/
theorem scrape_jobs_complete_run_witness :
    ∃ results : List (Nat × Record),
      scrape_jobs 2 envL parseTwoCards = Except.ok results ∧
      results.length = (parseTwoCards "L").length ∧
      results.map Prod.fst = List.range (parseTwoCards "L").length ∧
      ∀ c ∈ parse_cards (parseTwoCards "L"), ∃ r : Record,
        extract_info envL c.1 c.2.1 c.2.2 = Except.ok (c.1, r) ∧
        dictOf results c.1 = some r := by
  apply scrape_jobs_complete_run 2 envL parseTwoCards "L" rfl
  · decide
  · intro c hc
    have hpc : parse_cards (parseTwoCards "L")
        = [(0, "A", cardA), (1, "B", cardB)] := rfl
    rw [hpc] at hc
    rcases List.mem_cons.mp hc with he | hm
    · subst he
      exact ⟨recA, rfl⟩
    · rcases List.mem_cons.mp hm with he | hm2
      · subst he
        exact ⟨recB, rfl⟩
      · exact absurd hm2 (List.not_mem_nil c)

/-! ### Claim theorems for the normalized sink -/

/-- C6: persisting the same ResultSet twice against the same storage target
leaves the `titles` and `regions` row counts unchanged after the second run,
and the second run replaces the fact rows for the same indices rather than
duplicating them: the `jobs` row count and key set are unchanged too. -/
theorem save_sqlite_idempotent_counts (data : List (Nat × Record))
    (db : DB) :
    (save_sqlite data (save_sqlite data db)).titles.rows.length
      = (save_sqlite data db).titles.rows.length ∧
    (save_sqlite data (save_sqlite data db)).regions.rows.length
      = (save_sqlite data db).regions.rows.length ∧
    (save_sqlite data (save_sqlite data db)).jobs.length
      = (save_sqlite data db).jobs.length ∧
    (save_sqlite data (save_sqlite data db)).jobs.map Prod.fst
      = (save_sqlite data db).jobs.map Prod.fst := by
  have hpres := save_presence data db
  have hp := save_preserve data (save_sqlite data db)
    (fun p hp' => (hpres p hp').1)
    (fun p hp' => (hpres p hp').2.1)
    (fun p hp' => (hpres p hp').2.2)
  exact ⟨by rw [hp.1], by rw [hp.2.1], hp.2.2.1, hp.2.2.2⟩

/-- C7: two Records of one ResultSet with equal titles are persisted with
equal `title_id`; two Records with equal non-empty region texts are
persisted with equal (non-null) `region_id`. -/
theorem save_sqlite_dedup_ids (data : List (Nat × Record)) (db : DB)
    (i₁ i₂ : Nat) (r₁ r₂ : Record)
    (hnd : (data.map Prod.fst).Nodup)
    (h₁ : (i₁, r₁) ∈ data) (h₂ : (i₂, r₂) ∈ data) :
    (r₁.title = r₂.title →
      ∃ row₁ row₂ : JobRow,
        jobLookup (save_sqlite data db).jobs i₁ = some row₁ ∧
        jobLookup (save_sqlite data db).jobs i₂ = some row₂ ∧
        row₁.title_id = row₂.title_id) ∧
    (r₁.location.region = r₂.location.region →
      r₁.location.region ≠ "" →
      ∃ row₁ row₂ : JobRow,
        jobLookup (save_sqlite data db).jobs i₁ = some row₁ ∧
        jobLookup (save_sqlite data db).jobs i₂ = some row₂ ∧
        ∃ rid, row₁.region_id = some rid ∧ row₂.region_id = some rid) := by
  obtain ⟨row₁, hj₁, ht₁, hre₁, hrn₁⟩ :=
    save_persisted data db hnd (i₁, r₁) h₁
  obtain ⟨row₂, hj₂, ht₂, hre₂, hrn₂⟩ :=
    save_persisted data db hnd (i₂, r₂) h₂
  constructor
  · intro hteq
    refine ⟨row₁, row₂, hj₁, hj₂, ?_⟩
    rw [show (i₁, r₁).2 = r₁ from rfl] at ht₁
    rw [show (i₂, r₂).2 = r₂ from rfl] at ht₂
    rw [hteq] at ht₁
    exact Option.some.inj (ht₁.symm.trans ht₂)
  · intro hreq hnon
    obtain ⟨rid₁, hrow₁, hl₁⟩ := hrn₁ hnon
    have hnon₂ : (i₂, r₂).2.location.region ≠ "" := by
      show r₂.location.region ≠ ""
      rw [← hreq]
      exact hnon
    obtain ⟨rid₂, hrow₂, hl₂⟩ := hrn₂ hnon₂
    rw [show (i₁, r₁).2 = r₁ from rfl] at hl₁
    rw [show (i₂, r₂).2 = r₂ from rfl] at hl₂
    rw [hreq] at hl₁
    have hid : rid₁ = rid₂ := Option.some.inj (hl₁.symm.trans hl₂)
    refine ⟨row₁, row₂, hj₁, hj₂, rid₁, hrow₁, ?_⟩
    rw [hid]
    exact hrow₂

/-- Two Records sharing title `"T"` and region `"R"`. -/
def recT1 : Record := ⟨"T", "C1", ⟨"V1", "R"⟩, "D1", "U1", ""⟩

/-- A second Record with the same title and region. -/
def recT2 : Record := ⟨"T", "C2", ⟨"V2", "R"⟩, "D2", "U2", ""⟩

/-- Witness for C7 on a concrete two-Record ResultSet. -/
theorem save_sqlite_dedup_ids_witness :
    (∃ row₁ row₂ : JobRow,
      jobLookup (save_sqlite [(0, recT1), (1, recT2)] emptyDB).jobs 0
        = some row₁ ∧
      jobLookup (save_sqlite [(0, recT1), (1, recT2)] emptyDB).jobs 1
        = some row₂ ∧
      row₁.title_id = row₂.title_id) ∧
    (∃ row₁ row₂ : JobRow,
      jobLookup (save_sqlite [(0, recT1), (1, recT2)] emptyDB).jobs 0
        = some row₁ ∧
      jobLookup (save_sqlite [(0, recT1), (1, recT2)] emptyDB).jobs 1
        = some row₂ ∧
      ∃ rid, row₁.region_id = some rid ∧ row₂.region_id = some rid) := by
  have h := save_sqlite_dedup_ids [(0, recT1), (1, recT2)] emptyDB 0 1
    recT1 recT2 (by decide) (by decide) (by decide)
  exact ⟨h.1 rfl, h.2 rfl (by decide)⟩

/-- The full content of the database after persisting one Record into a
fresh target: the stored title is the stripped text, everything else is
stored verbatim. -/
theorem save_single_emptyDB (r : Record) :
    save_sqlite [(0, r)] emptyDB =
      ⟨⟨[(1, pyStrip r.title)], 2⟩,
       (if r.location.region = "" then (⟨[], 1⟩ : RefTable)
        else ⟨[(1, r.location.region)], 2⟩),
       [(0, ⟨1, r.company, r.location.ville,
         (if r.location.region = "" then none else some 1),
         r.date, r.url, r.content⟩)]⟩ := by
  by_cases hreg : r.location.region = "" <;>
    simp [save_sqlite, saveOne, getOrInsertRef, lookupRef, insertRef,
      upsertJob, emptyDB, hreg]

/-- C10: the sink strips surrounding whitespace from the TITLE before the
reference-table lookup-or-insert — two Records whose titles differ only in
surrounding whitespace share one `title_id`, and the value stored in
`titles` is the stripped text — while `company`, `ville` (city), `region`,
`date`, `url` and `content` are persisted verbatim, with no stripping. -/
theorem save_sqlite_title_strip (data : List (Nat × Record)) (db : DB)
    (i₁ i₂ : Nat) (r₁ r₂ : Record) (r : Record)
    (hnd : (data.map Prod.fst).Nodup)
    (h₁ : (i₁, r₁) ∈ data) (h₂ : (i₂, r₂) ∈ data) :
    (pyStrip r₁.title = pyStrip r₂.title →
      ∃ row₁ row₂ : JobRow,
        jobLookup (save_sqlite data db).jobs i₁ = some row₁ ∧
        jobLookup (save_sqlite data db).jobs i₂ = some row₂ ∧
        row₁.title_id = row₂.title_id) ∧
    ((save_sqlite [(0, r)] emptyDB).titles.rows
      = [(1, pyStrip r.title)]) ∧
    (r.location.region ≠ "" →
      (save_sqlite [(0, r)] emptyDB).regions.rows
        = [(1, r.location.region)]) ∧
    (∃ row : JobRow,
      jobLookup (save_sqlite [(0, r)] emptyDB).jobs 0 = some row ∧
      row.company = r.company ∧ row.ville = r.location.ville ∧
      row.date = r.date ∧ row.url = r.url ∧ row.content = r.content) := by
  refine ⟨?_, ?_, ?_, ?_⟩
  · intro hteq
    obtain ⟨row₁, hj₁, ht₁, hre₁, hrn₁⟩ :=
      save_persisted data db hnd (i₁, r₁) h₁
    obtain ⟨row₂, hj₂, ht₂, hre₂, hrn₂⟩ :=
      save_persisted data db hnd (i₂, r₂) h₂
    refine ⟨row₁, row₂, hj₁, hj₂, ?_⟩
    rw [show (i₁, r₁).2 = r₁ from rfl] at ht₁
    rw [show (i₂, r₂).2 = r₂ from rfl] at ht₂
    rw [hteq] at ht₁
    exact Option.some.inj (ht₁.symm.trans ht₂)
  · rw [save_single_emptyDB]
  · intro hr
    rw [save_single_emptyDB]
    simp [hr]
  · refine ⟨⟨1, r.company, r.location.ville,
      (if r.location.region = "" then none else some 1),
      r.date, r.url, r.content⟩, ?_, rfl, rfl, rfl, rfl, rfl⟩
    rw [save_single_emptyDB]
    rfl

/-- A Record whose title carries surrounding whitespace. -/
def recPad : Record := ⟨" T ", "C ", ⟨" V", " R "⟩, "D", "U", ""⟩

/-- The same Record with the title already stripped. -/
def recBare : Record := ⟨"T", "C2", ⟨"V2", " R "⟩, "D", "U", ""⟩

/-- Witness for C10: `" T "` and `"T"` share one `title_id`; the stored
title is `"T"`; the region `" R "` and company `"C "` keep their spaces. -/
theorem save_sqlite_title_strip_witness :
    (∃ row₁ row₂ : JobRow,
      jobLookup (save_sqlite [(0, recPad), (1, recBare)] emptyDB).jobs 0
        = some row₁ ∧
      jobLookup (save_sqlite [(0, recPad), (1, recBare)] emptyDB).jobs 1
        = some row₂ ∧
      row₁.title_id = row₂.title_id) ∧
    ((save_sqlite [(0, recPad)] emptyDB).titles.rows
      = [(1, pyStrip recPad.title)]) ∧
    (recPad.location.region ≠ "" →
      (save_sqlite [(0, recPad)] emptyDB).regions.rows
        = [(1, recPad.location.region)]) ∧
    (∃ row : JobRow,
      jobLookup (save_sqlite [(0, recPad)] emptyDB).jobs 0 = some row ∧
      row.company = recPad.company ∧ row.ville = recPad.location.ville ∧
      row.date = recPad.date ∧ row.url = recPad.url ∧
      row.content = recPad.content) := by
  have h := save_sqlite_title_strip [(0, recPad), (1, recBare)] emptyDB 0 1
    recPad recBare recPad (by decide) (by decide) (by decide)
  exact ⟨h.1 (by decide), h.2.1, h.2.2.1, h.2.2.2⟩

/-! ### Witnesses for the Extractor claim theorems -/

/-- Witness for C3: a concrete card without a location element extracts
successfully with `region = "--"`. -/
theorem extract_info_missing_location_region_witness :
    ∃ p : Nat × Record, extract_info envL 0 "A" cardA = Except.ok p ∧
      p.2.location.region = "--" :=
  (extract_info_missing_location_region envL 0 "A" cardA rfl).2 (by decide)

/-- A card with two footer links, the second with a non-empty href. -/
def cardTwoLinks : Card := ⟨some "T", none, none, none, ["a", "/jobs/1"]⟩

/-- The Record extracted from `cardTwoLinks` under `envL`. -/
def recTwoLinks : Record := ⟨"T", "NC", ⟨"NC", "--"⟩, "NC", "/jobs/1", ""⟩

/-- Witness for C4: the link-free card gets `url = "NC"`, `content = ""`
and an environment-independent result; the two-link card takes its url from
the second link. -/
theorem extract_info_footer_links_witness :
    ((0, recA) : Nat × Record).2.url = "NC" ∧
    ((0, recA) : Nat × Record).2.content = "" ∧
    extract_info envL 0 "A" cardA = extract_info env404 0 "A" cardA ∧
    ((0, recTwoLinks) : Nat × Record).2.url = "/jobs/1" := by
  have h1 := ((extract_info_footer_links envL 0 "A" cardA).1
    (by decide)).1 (0, recA) rfl
  have h2 := ((extract_info_footer_links envL 0 "A" cardA).1
    (by decide)).2 env404
  have h3 := (extract_info_footer_links envL 0 "T" cardTwoLinks).2
    "/jobs/1" rfl (by decide) (0, recTwoLinks) rfl
  exact ⟨h1.1, h1.2, h2, h3⟩

/-- A card carrying a machine-readable date attribute. -/
def cardDate : Card := ⟨some "T", none, none, some ⟨some "2023-08-11", "x"⟩, []⟩

/-- The Record extracted from `cardDate`. -/
def recDate : Record := ⟨"T", "NC", ⟨"NC", "--"⟩, "2023-08-11", "NC", ""⟩

/-- Witness for C5: the non-empty `datetime` attribute wins. -/
theorem extract_info_date_priority_witness :
    ((0, recDate) : Nat × Record).2.date = "2023-08-11" := by
  have h : extract_info envL 0 "T" cardDate = Except.ok (0, recDate) := rfl
  exact (extract_info_date_priority h).1 ⟨some "2023-08-11", "x"⟩
    "2023-08-11" rfl rfl (by decide)
